import Mathlib

/-!
Verification development for the particle transport and dosimetry engine
of the radiation_sim repository.  The definitions below are shallow
embeddings of the Rust source: machine floats are modelled by exact
rationals (where the logic is order/arithmetic driven) or by real numbers
(where square roots and exponentials occur); fresh uniform random draws
become explicit parameters in the interval [0, 1).
-/

namespace RadiationSim

/-- Particle species, from src/src/particle.rs (enum ParticleType). -/
inductive ParticleType where
  | Alpha
  | Electron
  | Proton
  | Neutron
  | Gamma
deriving DecidableEq, Repr

/-- Decay classes, from src/src/data_reading/element.rs (enum DecayType). -/
inductive DecayType where
  | BetaMinus
  | BetaPlus
  | BetaElectronCapture
  | Alpha
  | Other
deriving DecidableEq, Repr

/-- Speed of light, from src/src/constants.rs (LIGHT_SPEED). -/
noncomputable def LIGHT_SPEED : ℝ := 299792458

/-- Squared speed of light literal, from src/src/constants.rs (LIGHT_SPEED_SQ). -/
noncomputable def LIGHT_SPEED_SQ : ℝ := 89875517873681764

/-- Charge conversion factor, from src/src/constants.rs (EV_CONVERSION = 1.602·10⁻¹⁹). -/
noncomputable def EV_CONVERSION : ℝ := 1.602 * (10 : ℝ) ^ (-19 : ℤ)

/-- Electron rest mass, from src/src/constants.rs (ELECTRON_MASS = 9.109384·10⁻³¹). -/
noncomputable def ELECTRON_MASS : ℝ := 9.109384 * (10 : ℝ) ^ (-31 : ℤ)

/-- Alpha particle rest mass, from src/src/constants.rs (ALPHA_MASS = 6.644657·10⁻²⁷). -/
noncomputable def ALPHA_MASS : ℝ := 6.644657 * (10 : ℝ) ^ (-27 : ℤ)

/-- Rest mass used by the kinematics conversions, from src/src/particle.rs
(the match on particle_type in energy_to_velocity / velocity_to_energy:
electron mass for electrons, alpha mass for every other species). -/
noncomputable def restMass (t : ParticleType) : ℝ :=
  match t with
  | ParticleType.Electron => ELECTRON_MASS
  | _ => ALPHA_MASS

/-- Relativistic energy → speed conversion, from src/src/particle.rs
(fn energy_to_velocity): k = E·EV_CONVERSION/(m·c²) + 1 and
speed = c·sqrt(k² − 1)/k. -/
noncomputable def energy_to_velocity (energy : ℝ) (particle_type : ParticleType) : ℝ :=
  let mass := restMass particle_type
  let k := energy * EV_CONVERSION / (mass * LIGHT_SPEED_SQ) + 1
  let k_sq := k ^ 2
  LIGHT_SPEED * Real.sqrt (k_sq - 1) / k

/-- Relativistic speed → energy conversion, from src/src/particle.rs
(fn velocity_to_energy): k = 1/sqrt(1 − (v/c)²) and
energy = (k − 1)·m·c²/EV_CONVERSION. -/
noncomputable def velocity_to_energy (velocity : ℝ) (particle_type : ParticleType) : ℝ :=
  let mass := restMass particle_type
  let k := 1 / Real.sqrt (1 - (velocity / LIGHT_SPEED) ^ 2)
  (k - 1) * mass * LIGHT_SPEED_SQ / EV_CONVERSION

/-- Stopping-power lookup, from src/src/particle.rs (fn pick_stopping_power):
scan the curve in order and return the rate of the first sample whose
tabulated energy is strictly greater than the query; if no sample
qualifies return the last sample's rate (last().unwrap() panics on an
empty curve, modelled by none). -/
def pick_stopping_power (stopping_powers : List (ℚ × ℚ)) (energy : ℚ) : Option ℚ :=
  match stopping_powers.find? (fun p => decide (p.1 > energy)) with
  | some p => some p.2
  | none => stopping_powers.getLast?.map Prod.snd

/-- Loop of MaterialData::pick_substance, from src/src/material/mod.rs:
walk the weighted parts keeping a running accumulator; break with the
current part's substance as soon as weight + acc exceeds the draw.
Running off the end of the list (an index panic in Rust) is modelled by
none.  The draw num is the fastrand::f32() value, passed explicitly. -/
def pick_substance_loop {α : Type} (parts : List (ℚ × α)) (num acc : ℚ) : Option α :=
  match parts with
  | [] => none
  | (w, s) :: rest => if w + acc > num then some s else pick_substance_loop rest num (acc + w)

/-- MaterialData::pick_substance, from src/src/material/mod.rs, with the
uniform draw made explicit; the accumulator starts at 0. -/
def pick_substance {α : Type} (parts : List (ℚ × α)) (num : ℚ) : Option α :=
  pick_substance_loop parts num 0

/-- Per-sub-step energy transfer, from src/src/lib.rs
(fn calculate_energy_transfer, identical to the inline match in
src/src/particle.rs process_particles): gammas transfer their whole
energy when e^(−1·rate·distance) < u (a fresh uniform draw, passed
explicitly) and nothing otherwise; every other species transfers
rate·distance. -/
noncomputable def calculate_energy_transfer (stopping_power : ℝ) (particle_type : ParticleType)
    (energy : ℝ) (distance : ℝ) (u : ℝ) : ℝ :=
  match particle_type with
  | ParticleType.Gamma =>
      if Real.exp (-1 * stopping_power * distance) < u then energy else 0
  | _ => stopping_power * distance

/-- A 3-D point or scale vector (bevy Vec3), componentwise rationals. -/
structure Point where
  x : ℚ
  y : ℚ
  z : ℚ
deriving DecidableEq, Repr

/-- One scene volume as seen by the transport stepper, from
src/src/particle.rs process_particles: a global translation, an
axis-aligned scale, and its material mixture (abstracted to an
identifier, since only which mixture gets used matters here). -/
structure Volume where
  pos : Point
  scale : Point
  mixture : ℕ
deriving DecidableEq, Repr

/-- The bounding-box hit test of process_particles, from
src/src/particle.rs (the six strict comparisons against
obj_pos ± obj_scale/2 on all three axes). -/
def insideVolume (par_pos : Point) (v : Volume) : Bool :=
  decide (par_pos.x > v.pos.x - v.scale.x / 2) && decide (par_pos.x < v.pos.x + v.scale.x / 2) &&
  decide (par_pos.y > v.pos.y - v.scale.y / 2) && decide (par_pos.y < v.pos.y + v.scale.y / 2) &&
  decide (par_pos.z > v.pos.z - v.scale.z / 2) && decide (par_pos.z < v.pos.z + v.scale.z / 2)

/-- Medium resolution of one transport sub-step, from src/src/particle.rs
process_particles: iterate over all volumes, overwriting hit_substance
with the current volume's mixture on every bounding-box hit (the loop
has no break), and fall back to the ambient mixture when no volume was
hit. -/
def resolveMedium (vols : List Volume) (ambient : ℕ) (p : Point) : ℕ :=
  match vols.foldl (fun hit v => if insideVolume p v then some v.mixture else hit) none with
  | some m => m
  | none => ambient

/-- Stochastic rounding of the expected decay count, from
src/src/particle.rs spawn_object_particles:
estimated.floor() as usize + (1 if estimated − floor > fastrand::f32()
else 0), with the uniform draw u passed explicitly. -/
def sampled_decays (estimated_decays : ℚ) (u : ℚ) : ℕ :=
  (⌊estimated_decays⌋).toNat +
    (if estimated_decays - ⌊estimated_decays⌋ > u then 1 else 0)

/-- Decay classification of the emission sampler, from
src/src/particle.rs spawn_object_particles (the match on
decay.decay_type); the catch-all panic for unsupported decay classes is
modelled by none. -/
def classify_decay (d : DecayType) : Option ParticleType :=
  match d with
  | DecayType.Alpha => some ParticleType.Alpha
  | DecayType.BetaElectronCapture => some ParticleType.Electron
  | DecayType.BetaMinus => some ParticleType.Electron
  | DecayType.BetaPlus => some ParticleType.Electron
  | DecayType.Other => none

/-- The per-particle state the termination check reads, from
src/src/particle.rs process_particles: the particle's energy field and
the magnitude of its velocity. -/
structure PState where
  energy : ℚ
  speed : ℚ
deriving DecidableEq, Repr

/-- The termination condition of process_particles, from
src/src/particle.rs: particle.energy < 0.1 || velocity.length() < 10.0. -/
def termCond (p : PState) : Bool :=
  decide (p.energy < 1 / 10) || decide (p.speed < 10)

/-- The sub-step loop of process_particles for one particle, from
src/src/particle.rs: run the given number of sub-steps; each sub-step
applies one transport update (abstracted into step, covering move,
collide and the material application) and then checks the termination
condition, despawning the particle (none) and breaking out of the loop
when it holds. -/
def runSubsteps (step : PState → PState) : ℕ → PState → Option PState
  | 0, p => some p
  | Nat.succ n, p =>
      let p2 := step p
      if termCond p2 then none else runSubsteps step n p2

/-- One tick of the transport stepper over the live-particle list, from
src/src/particle.rs process_particles: every live particle runs its
sub-step loop; despawned particles (command-buffer despawn applied at
the end of the system) are gone from the resulting live list. -/
def tick (step : PState → PState) (n : ℕ) (ps : List PState) : List PState :=
  ps.filterMap (runSubsteps step n)

/-- Iterated ticks of the transport stepper: the live-particle
enumeration after k further ticks. -/
def ticks (step : PState → PState) (n : ℕ) : ℕ → List PState → List PState
  | 0, ps => ps
  | Nat.succ k, ps => ticks step n k (tick step n ps)

/-- A concrete transport update that drains the particle, used to
exercise the termination theorem on a closed instance. -/
def stopStep : PState → PState := fun _ => ⟨0, 0⟩

/-! ## Helper lemmas -/

lemma find?_first_exceeding (e : ℚ) :
    ∀ (xs : List (ℚ × ℚ)) (p : ℚ × ℚ) (ys : List (ℚ × ℚ)),
      (∀ q ∈ xs, q.1 ≤ e) → e < p.1 →
      (xs ++ p :: ys).find? (fun q => decide (q.1 > e)) = some p := by
  intro xs
  induction xs with
  | nil =>
      intro p ys _ hp
      simp [List.find?_cons, hp]
  | cons q xs ih =>
      intro p ys hall hp
      have hq : ¬ q.1 > e := not_lt.mpr (hall q (by simp))
      simp only [List.cons_append, List.find?_cons, hq, decide_eq_true_eq, if_neg]
      simpa [hq] using ih p ys (fun r hr => hall r (List.mem_cons_of_mem _ hr)) hp

lemma pick_substance_loop_first (u w : ℚ) (s : ℕ) (ys : List (ℚ × ℕ)) :
    ∀ (xs : List (ℚ × ℕ)) (acc : ℚ),
      (xs.map Prod.fst).sum + w + acc > u →
      (∀ n : ℕ, n < xs.length → ((xs.take (n + 1)).map Prod.fst).sum + acc ≤ u) →
      pick_substance_loop (xs ++ (w, s) :: ys) u acc = some s := by
  intro xs
  induction xs with
  | nil =>
      intro acc hsum _
      simp only [List.map_nil, List.sum_nil, zero_add] at hsum
      simp only [List.nil_append, pick_substance_loop]
      rw [if_pos hsum]
  | cons hd tl ih =>
      intro acc hsum hpre
      obtain ⟨w0, s0⟩ := hd
      have h0 : w0 + acc ≤ u := by simpa using hpre 0 (by simp)
      simp only [List.cons_append, pick_substance_loop]
      rw [if_neg (by linarith)]
      apply ih
      · simp only [List.map_cons, List.sum_cons] at hsum
        linarith
      · intro n hn
        have h := hpre (n + 1) (by simpa using Nat.succ_lt_succ hn)
        simp only [List.take_succ_cons, List.map_cons, List.sum_cons] at h
        linarith

lemma pick_substance_loop_total (u : ℚ) :
    ∀ (parts : List (ℚ × ℕ)) (acc : ℚ),
      (∀ q ∈ parts, 0 ≤ q.1) → acc ≤ u → u < (parts.map Prod.fst).sum + acc →
      ∃ s, pick_substance_loop parts u acc = some s ∧ s ∈ parts.map Prod.snd := by
  intro parts
  induction parts with
  | nil =>
      intro acc _ hacc hlt
      simp only [List.map_nil, List.sum_nil, zero_add] at hlt
      exact absurd hlt (not_lt.mpr hacc)
  | cons hd tl ih =>
      intro acc hw hacc hlt
      obtain ⟨w, s⟩ := hd
      by_cases h : w + acc > u
      · exact ⟨s, by simp [pick_substance_loop, h], by simp⟩
      · push_neg at h
        obtain ⟨r, hr, hmem⟩ := ih (acc + w)
          (fun q hq => hw q (List.mem_cons_of_mem _ hq))
          (by linarith)
          (by simp only [List.map_cons, List.sum_cons] at hlt; linarith)
        refine ⟨r, ?_, by simp [hmem]⟩
        simp only [pick_substance_loop]
        rw [if_neg (not_lt.mpr h)]
        exact hr

lemma resolveFold_no_hit (p : Point) :
    ∀ (vols : List Volume) (acc : Option ℕ),
      (∀ v ∈ vols, insideVolume p v = false) →
      vols.foldl (fun hit v => if insideVolume p v then some v.mixture else hit) acc = acc := by
  intro vols
  induction vols with
  | nil => intro acc _; rfl
  | cons w vols ih =>
      intro acc hall
      have hw : insideVolume p w = false := hall w (by simp)
      simp only [List.foldl_cons, hw, Bool.false_eq_true, if_false]
      exact ih acc (fun v hv => hall v (List.mem_cons_of_mem _ hv))

/-! ## Claim theorems -/

/-- Claim C1 (counterexample): two identical unit volumes both contain the
origin; medium resolution returns the mixture of the SECOND (last
matching) volume, not the first matching one as the claim states. -/
theorem resolveMedium_first_match_cex :
    insideVolume ⟨0, 0, 0⟩ ⟨⟨0, 0, 0⟩, ⟨1, 1, 1⟩, 0⟩ = true
    ∧ insideVolume ⟨0, 0, 0⟩ ⟨⟨0, 0, 0⟩, ⟨1, 1, 1⟩, 1⟩ = true
    ∧ resolveMedium [⟨⟨0, 0, 0⟩, ⟨1, 1, 1⟩, 0⟩, ⟨⟨0, 0, 0⟩, ⟨1, 1, 1⟩, 1⟩] 7 ⟨0, 0, 0⟩ = 1
    ∧ (⟨⟨0, 0, 0⟩, ⟨1, 1, 1⟩, (0 : ℕ)⟩ : Volume).mixture ≠ 1 := by
  refine ⟨by norm_num [insideVolume], by norm_num [insideVolume],
    by norm_num [resolveMedium, insideVolume], by norm_num⟩

/-- Claim C1 (amended): in each transport sub-step the occupying medium is
resolved by testing the position against every volume's bounding box; if
it is inside one or more volumes, the mixture of the LAST matching
volume in iteration order is used (the loop keeps overwriting the hit),
and only when it is inside no volume does resolution fall back to the
ambient medium's mixture. -/
theorem resolveMedium_spec (vols : List Volume) (ambient : ℕ) (p : Point) :
    ((∀ v ∈ vols, insideVolume p v = false) → resolveMedium vols ambient p = ambient)
    ∧ (∀ (xs : List Volume) (v : Volume) (ys : List Volume),
        vols = xs ++ v :: ys → insideVolume p v = true →
        (∀ w ∈ ys, insideVolume p w = false) →
        resolveMedium vols ambient p = v.mixture) := by
  constructor
  · intro hall
    unfold resolveMedium
    rw [resolveFold_no_hit p vols none hall]
  · rintro xs v ys rfl hv hys
    unfold resolveMedium
    rw [List.foldl_append]
    simp only [List.foldl_cons, hv, if_true]
    rw [resolveFold_no_hit p ys _ hys]

/-- Claim C1 (witness): with two overlapping volumes the resolver returns
the last matching volume's mixture on a concrete instance. -/
theorem resolveMedium_spec_witness :
    resolveMedium [⟨⟨0, 0, 0⟩, ⟨1, 1, 1⟩, 0⟩, ⟨⟨0, 0, 0⟩, ⟨1, 1, 1⟩, 1⟩] 7 ⟨0, 0, 0⟩ = 1 :=
  (resolveMedium_spec [⟨⟨0, 0, 0⟩, ⟨1, 1, 1⟩, 0⟩, ⟨⟨0, 0, 0⟩, ⟨1, 1, 1⟩, 1⟩] 7 ⟨0, 0, 0⟩).2
    [⟨⟨0, 0, 0⟩, ⟨1, 1, 1⟩, 0⟩] ⟨⟨0, 0, 0⟩, ⟨1, 1, 1⟩, 1⟩ [] rfl
    (by norm_num [insideVolume]) (by simp)

/-- Claim C3: for every non-empty stopping-power curve and query energy,
pick_stopping_power returns the rate of the first sample whose energy
strictly exceeds the query, and the last sample's rate when no sample
exceeds it; on the curve [(1,10),(5,20),(10,5)] it returns 10 at 0, 20
at 3, 5 at 7 and 5 at 10. -/
theorem pick_stopping_power_spec (e : ℚ) :
    (∀ (xs : List (ℚ × ℚ)) (p : ℚ × ℚ) (ys : List (ℚ × ℚ)),
        (∀ q ∈ xs, q.1 ≤ e) → e < p.1 →
        pick_stopping_power (xs ++ p :: ys) e = some p.2)
    ∧ (∀ (sps : List (ℚ × ℚ)) (h : sps ≠ []), (∀ q ∈ sps, q.1 ≤ e) →
        pick_stopping_power sps e = some (sps.getLast h).2)
    ∧ pick_stopping_power [(1, 10), (5, 20), (10, 5)] 0 = some 10
    ∧ pick_stopping_power [(1, 10), (5, 20), (10, 5)] 3 = some 20
    ∧ pick_stopping_power [(1, 10), (5, 20), (10, 5)] 7 = some 5
    ∧ pick_stopping_power [(1, 10), (5, 20), (10, 5)] 10 = some 5 := by
  refine ⟨?_, ?_, by decide, by decide, by decide, by decide⟩
  · intro xs p ys hall hp
    unfold pick_stopping_power
    rw [find?_first_exceeding e xs p ys hall hp]
  · intro sps h hall
    unfold pick_stopping_power
    have hnone : sps.find? (fun q => decide (q.1 > e)) = none :=
      List.find?_eq_none.mpr (fun q hq => by simpa using not_lt.mpr (hall q hq))
    rw [hnone, List.getLast?_eq_getLast_of_ne_nil h]
    rfl

/-- Claim C3 (witness): both branches of the lookup exercised on concrete
curves through the theorem. -/
theorem pick_stopping_power_spec_witness :
    pick_stopping_power ([] ++ (3, 4) :: []) 0 = some 4
    ∧ pick_stopping_power [(1, 2)] 9 = some 2 := by
  constructor
  · exact (pick_stopping_power_spec 0).1 [] (3, 4) [] (by simp) (by norm_num)
  · exact (pick_stopping_power_spec 9).2.1 [(1, 2)] (by simp) (by norm_num)

/-- Claim C4: pick_substance walks the weighted list accumulating weights
and returns the first substance whose cumulative weight exceeds the
uniform draw, without renormalizing; on [(0.3,A),(0.7,B)] a draw of 0.2
resolves to A and a draw of 0.5 resolves to B (A = 0, B = 1). -/
theorem pick_substance_spec (u : ℚ) :
    (∀ (xs : List (ℚ × ℕ)) (w : ℚ) (s : ℕ) (ys : List (ℚ × ℕ)),
        (xs.map Prod.fst).sum + w > u →
        (∀ n : ℕ, n < xs.length → ((xs.take (n + 1)).map Prod.fst).sum ≤ u) →
        pick_substance (xs ++ (w, s) :: ys) u = some s)
    ∧ pick_substance [((3 : ℚ) / 10, (0 : ℕ)), (7 / 10, 1)] (1 / 5) = some 0
    ∧ pick_substance [((3 : ℚ) / 10, (0 : ℕ)), (7 / 10, 1)] (1 / 2) = some 1 := by
  refine ⟨?_, by norm_num [pick_substance, pick_substance_loop],
    by norm_num [pick_substance, pick_substance_loop]⟩
  intro xs w s ys hsum hpre
  unfold pick_substance
  exact pick_substance_loop_first u w s ys xs 0
    (by linarith) (fun n hn => by simpa using hpre n hn)

/-- Claim C4 (witness): the first-exceeding characterisation applied to a
concrete one-part mixture. -/
theorem pick_substance_spec_witness :
    pick_substance ([] ++ ((1 : ℚ), (9 : ℕ)) :: []) (1 / 2) = some 9 :=
  (pick_substance_spec (1 / 2)).1 [] 1 9 [] (by norm_num) (by simp)

/-- Claim C10: for every mixture whose part weights are non-negative and
sum to at least 1, and every uniform draw in [0,1), pick_substance
terminates in bounds and returns the substance of some part of the
mixture (the unguarded walk never runs off the list under this
precondition). -/
theorem pick_substance_total (parts : List (ℚ × ℕ)) (u : ℚ)
    (hw : ∀ q ∈ parts, 0 ≤ q.1) (hsum : 1 ≤ (parts.map Prod.fst).sum)
    (hu0 : 0 ≤ u) (hu1 : u < 1) :
    ∃ s, pick_substance parts u = some s ∧ s ∈ parts.map Prod.snd := by
  have h := pick_substance_loop_total u parts 0 hw hu0 (by linarith)
  simpa [pick_substance] using h

/-- Claim C10 (witness): totality exercised on a concrete mixture. -/
theorem pick_substance_total_witness :
    ∃ s, pick_substance [((1 : ℚ), (5 : ℕ))] (1 / 2) = some s
      ∧ s ∈ ([((1 : ℚ), (5 : ℕ))].map Prod.snd) :=
  pick_substance_total [((1 : ℚ), (5 : ℕ))] (1 / 2)
    (by norm_num) (by norm_num) (by norm_num) (by norm_num)

/-- Claim C7: the sampled decay count equals floor(e)+1 exactly when the
fractional part of e exceeds the uniform draw and floor(e) otherwise;
the deterministic part plus the fractional part reassemble e, and the
set of draws in [0,1) that round up is exactly [0, fract e), so the
expectation of the rounding over a uniform draw is e. -/
theorem sampled_decays_spec (e u : ℚ) (he : 0 ≤ e) (hu0 : 0 ≤ u) (hu1 : u < 1) :
    (sampled_decays e u =
      if u < e - ⌊e⌋ then (⌊e⌋).toNat + 1 else (⌊e⌋).toNat)
    ∧ (((⌊e⌋).toNat : ℚ) + (e - ⌊e⌋) = e)
    ∧ {v : ℚ | 0 ≤ v ∧ v < 1 ∧ sampled_decays e v = (⌊e⌋).toNat + 1} =
        {v : ℚ | 0 ≤ v ∧ v < e - ⌊e⌋} := by
  have hfl : ((⌊e⌋).toNat : ℤ) = ⌊e⌋ := Int.toNat_of_nonneg (Int.floor_nonneg.mpr he)
  have hfrac1 : e - ⌊e⌋ < 1 := by
    have := Int.lt_floor_add_one e
    push_cast at this
    linarith
  refine ⟨?_, ?_, ?_⟩
  · simp only [sampled_decays, gt_iff_lt]
    by_cases h : u < e - ⌊e⌋
    · rw [if_pos h, if_pos h]
    · rw [if_neg h, if_neg h, add_zero]
  · have h2 : (((⌊e⌋).toNat : ℚ)) = ((⌊e⌋ : ℤ) : ℚ) := by exact_mod_cast hfl
    rw [h2]
    ring
  · ext v
    simp only [Set.mem_setOf_eq, sampled_decays, gt_iff_lt]
    constructor
    · rintro ⟨h0, h1, heq⟩
      by_cases h : v < e - ⌊e⌋
      · exact ⟨h0, h⟩
      · rw [if_neg h] at heq
        exact absurd heq (by omega)
    · rintro ⟨h0, hlt⟩
      refine ⟨h0, lt_trans hlt hfrac1, ?_⟩
      rw [if_pos hlt]

/-- Claim C7 (witness): the rounding formula instantiated at a concrete
expected count and draw. -/
theorem sampled_decays_spec_witness :
    sampled_decays (7 / 2) (1 / 4) =
      if (1 / 4 : ℚ) < 7 / 2 - ⌊(7 / 2 : ℚ)⌋ then (⌊(7 / 2 : ℚ)⌋).toNat + 1
      else (⌊(7 / 2 : ℚ)⌋).toNat :=
  (sampled_decays_spec (7 / 2) (1 / 4) (by norm_num) (by norm_num) (by norm_num)).1

/-- Claim C8: once a transport sub-step leaves a particle below the energy
threshold 0.1 or the termination speed 10, the particle is despawned:
its remaining sub-steps in that tick are skipped (the loop yields none
no matter how many sub-steps remain), it contributes nothing to the
tick's resulting live list, and every subsequent tick enumeration
equals that of a world without it. -/
theorem particle_termination (step : PState → PState) (n : ℕ) (p : PState)
    (ps qs : List PState) (h : runSubsteps step n p = none) :
    (∀ m : ℕ, termCond (step p) = true → runSubsteps step (m + 1) p = none)
    ∧ tick step n (ps ++ p :: qs) = tick step n ps ++ tick step n qs
    ∧ ∀ k : ℕ, ticks step n k (tick step n (ps ++ p :: qs)) =
        ticks step n k (tick step n (ps ++ qs)) := by
  have h2 : tick step n (ps ++ p :: qs) = tick step n ps ++ tick step n qs := by
    simp [tick, List.filterMap_append, List.filterMap_cons, h]
  have h3 : tick step n (ps ++ qs) = tick step n ps ++ tick step n qs := by
    simp [tick, List.filterMap_append]
  refine ⟨?_, h2, ?_⟩
  · intro m hterm
    simp [runSubsteps, hterm]
  · intro k
    rw [h2, h3]

/-- Claim C8 (witness): a concrete drained particle disappears from the
tick's live list. -/
theorem particle_termination_witness :
    tick stopStep 1 ([] ++ (⟨1, 20⟩ : PState) :: []) = tick stopStep 1 [] ++ tick stopStep 1 [] :=
  (particle_termination stopStep 1 ⟨1, 20⟩ [] []
    (by norm_num [runSubsteps, termCond, stopStep])).2.1

/-- Claim C9: the emission sampler classifies alpha decays to alpha
particles and the three electron-emitting decay classes to electrons;
every successfully classified decay is a charged species, and exactly
the remaining class (Other) is rejected with a halt (modelled none)
instead of silently emitting a particle. -/
theorem classify_decay_spec :
    classify_decay DecayType.Alpha = some ParticleType.Alpha
    ∧ classify_decay DecayType.BetaMinus = some ParticleType.Electron
    ∧ classify_decay DecayType.BetaPlus = some ParticleType.Electron
    ∧ classify_decay DecayType.BetaElectronCapture = some ParticleType.Electron
    ∧ (∀ d : DecayType, classify_decay d = none ↔ d = DecayType.Other)
    ∧ (∀ (d : DecayType) (t : ParticleType),
        classify_decay d = some t → t = ParticleType.Alpha ∨ t = ParticleType.Electron) := by
  refine ⟨rfl, rfl, rfl, rfl, ?_, ?_⟩
  · intro d
    cases d <;> simp [classify_decay]
  · intro d t h
    cases d <;> simp_all [classify_decay]

lemma LIGHT_SPEED_pos : (0 : ℝ) < LIGHT_SPEED := by
  unfold LIGHT_SPEED; norm_num

lemma LIGHT_SPEED_SQ_pos : (0 : ℝ) < LIGHT_SPEED_SQ := by
  unfold LIGHT_SPEED_SQ; norm_num

lemma EV_CONVERSION_pos : (0 : ℝ) < EV_CONVERSION := by
  unfold EV_CONVERSION; positivity

lemma restMass_pos (t : ParticleType) : (0 : ℝ) < restMass t := by
  cases t <;> · unfold restMass ELECTRON_MASS ALPHA_MASS; positivity

lemma speed_lt_light_aux (m E : ℝ) (hm : 0 < m) (hE : 0 ≤ E) :
    LIGHT_SPEED * Real.sqrt ((E * EV_CONVERSION / (m * LIGHT_SPEED_SQ) + 1) ^ 2 - 1) /
      (E * EV_CONVERSION / (m * LIGHT_SPEED_SQ) + 1) < LIGHT_SPEED := by
  set k := E * EV_CONVERSION / (m * LIGHT_SPEED_SQ) + 1 with hkdef
  have hk1 : 1 ≤ k := by
    have h0 : 0 ≤ E * EV_CONVERSION / (m * LIGHT_SPEED_SQ) :=
      div_nonneg (mul_nonneg hE EV_CONVERSION_pos.le) (mul_nonneg hm.le LIGHT_SPEED_SQ_pos.le)
    simp only [hkdef]
    linarith
  have hk0 : 0 < k := by linarith
  have hsq : Real.sqrt (k ^ 2 - 1) < k := by
    have h1 : k ^ 2 - 1 < k ^ 2 := by linarith
    have h0 : 0 ≤ k ^ 2 - 1 := by nlinarith
    calc Real.sqrt (k ^ 2 - 1) < Real.sqrt (k ^ 2) := Real.sqrt_lt_sqrt h0 h1
      _ = k := Real.sqrt_sq hk0.le
  rw [div_lt_iff₀ hk0]
  exact mul_lt_mul_of_pos_left hsq LIGHT_SPEED_pos

/-- Claim C5: for every particle species and every non-negative energy,
energy_to_velocity returns a speed strictly below the speed of light
(real-arithmetic model of the float computation). -/
theorem energy_to_velocity_lt_light (particle_type : ParticleType) (E : ℝ) (hE : 0 ≤ E) :
    energy_to_velocity E particle_type < LIGHT_SPEED := by
  have h := speed_lt_light_aux (restMass particle_type) E (restMass_pos particle_type) hE
  simpa [energy_to_velocity] using h

/-- Claim C5 (witness): the speed bound at zero energy for an alpha
particle. -/
theorem energy_to_velocity_lt_light_witness :
    energy_to_velocity 0 ParticleType.Alpha < LIGHT_SPEED :=
  energy_to_velocity_lt_light ParticleType.Alpha 0 le_rfl

lemma round_trip_aux (m E : ℝ) (hm : 0 < m) (hE : 0 ≤ E) :
    (1 / Real.sqrt (1 -
        (LIGHT_SPEED * Real.sqrt ((E * EV_CONVERSION / (m * LIGHT_SPEED_SQ) + 1) ^ 2 - 1) /
          (E * EV_CONVERSION / (m * LIGHT_SPEED_SQ) + 1) / LIGHT_SPEED) ^ 2) - 1) *
      m * LIGHT_SPEED_SQ / EV_CONVERSION = E := by
  set k := E * EV_CONVERSION / (m * LIGHT_SPEED_SQ) + 1 with hkdef
  have hk1 : 1 ≤ k := by
    have h0 : 0 ≤ E * EV_CONVERSION / (m * LIGHT_SPEED_SQ) :=
      div_nonneg (mul_nonneg hE EV_CONVERSION_pos.le) (mul_nonneg hm.le LIGHT_SPEED_SQ_pos.le)
    simp only [hkdef]
    linarith
  have hk0 : 0 < k := by linarith
  have hk2 : (0 : ℝ) ≤ k ^ 2 - 1 := by nlinarith
  have hvc : LIGHT_SPEED * Real.sqrt (k ^ 2 - 1) / k / LIGHT_SPEED
      = Real.sqrt (k ^ 2 - 1) / k := by
    field_simp [hk0.ne', LIGHT_SPEED_pos.ne']
    ring
  rw [hvc, div_pow, Real.sq_sqrt hk2]
  have h3 : 1 - (k ^ 2 - 1) / k ^ 2 = 1 / k ^ 2 := by
    field_simp
  rw [h3, show (1 : ℝ) / k ^ 2 = (k ^ 2)⁻¹ from one_div _, Real.sqrt_inv,
    Real.sqrt_sq hk0.le, one_div, inv_inv]
  have h5 : k - 1 = E * EV_CONVERSION / (m * LIGHT_SPEED_SQ) := by
    simp only [hkdef]
    ring
  rw [h5]
  field_simp [hm.ne', LIGHT_SPEED_SQ_pos.ne', EV_CONVERSION_pos.ne']
  ring

/-- Claim C6: for every species and every energy E ≥ 0 (including E = 0),
velocity_to_energy inverts energy_to_velocity exactly in the
real-arithmetic model, hence within any floating tolerance. -/
theorem velocity_to_energy_round_trip (particle_type : ParticleType) (E : ℝ) (hE : 0 ≤ E) :
    velocity_to_energy (energy_to_velocity E particle_type) particle_type = E := by
  have h := round_trip_aux (restMass particle_type) E (restMass_pos particle_type) hE
  simpa [velocity_to_energy, energy_to_velocity] using h

/-- Claim C6 (witness): the round trip at zero energy for an alpha
particle. -/
theorem velocity_to_energy_round_trip_witness :
    velocity_to_energy (energy_to_velocity 0 ParticleType.Alpha) ParticleType.Alpha = 0 :=
  velocity_to_energy_round_trip ParticleType.Alpha 0 le_rfl

/-- Claim C2 (counterexample): with rate 1 and distance 1 the survival
probability p = e^(−1) is a legitimate draw (0 ≤ p < 1); at the draw
u = p, where the claim demands full absorption, the code transfers 0,
not the photon's energy 5. -/
theorem calculate_energy_transfer_boundary_cex :
    (0 : ℝ) ≤ Real.exp (-1 * 1 * 1)
    ∧ Real.exp (-1 * 1 * 1) < 1
    ∧ calculate_energy_transfer 1 ParticleType.Gamma 5 1 (Real.exp (-1 * 1 * 1)) = 0
    ∧ (0 : ℝ) ≠ 5 := by
  refine ⟨(Real.exp_pos _).le, ?_, ?_, by norm_num⟩
  · rw [Real.exp_lt_one_iff]
    norm_num
  · simp only [calculate_energy_transfer]
    rw [if_neg (lt_irrefl _)]

/-- Claim C2 (amended): for a photon with attenuation rate and
displacement length, the transfer is all-or-nothing with p =
e^(−rate·distance): when the fresh draw u satisfies u ≤ p the photon is
not absorbed (transfer 0), and when u > p it is fully absorbed
(transfer = its whole current energy). -/
theorem calculate_energy_transfer_gamma_spec (stopping_power distance u energy : ℝ) :
    (u ≤ Real.exp (-1 * stopping_power * distance) →
      calculate_energy_transfer stopping_power ParticleType.Gamma energy distance u = 0)
    ∧ (Real.exp (-1 * stopping_power * distance) < u →
      calculate_energy_transfer stopping_power ParticleType.Gamma energy distance u = energy) := by
  constructor
  · intro h
    simp only [calculate_energy_transfer]
    rw [if_neg (not_lt.mpr h)]
  · intro h
    simp only [calculate_energy_transfer]
    rw [if_pos h]

/-- Claim C2 (witness): a draw of 1/2 against survival probability
e^0 = 1 leaves the photon untouched. -/
theorem calculate_energy_transfer_gamma_witness :
    calculate_energy_transfer 0 ParticleType.Gamma 3 0 (1 / 2) = 0 :=
  (calculate_energy_transfer_gamma_spec 0 0 (1 / 2) 3).1
    (by rw [show (-1 : ℝ) * 0 * 0 = 0 by ring, Real.exp_zero]; norm_num)

end RadiationSim
